import Mathlib

set_option maxHeartbeats 1000000

/- Verification development for the SNAP NVME example tool
   (src/actions/hdl_example/sw/snap_example_qnvme.c).
   Host buffers are modelled as lists of 64-bit words, since the program
   reads and writes them 8 bytes at a time; machine integers are Nat with
   explicit reduction modulo 2 ^ 64 or 2 ^ 32 wherever C overflow can
   occur, and the in-flight counter qin is Int, matching the C int. -/

/-- One 64-bit pattern word, as computed by the source line
    (pattern AND 0xffffffff) OR (NOT pattern shifted left by 32), on
    uint64 values; the argument is the current pattern value, already
    below 2 ^ 64, and bitwise NOT on uint64 of p is 2 ^ 64 - 1 - p. -/
def patWord (p : Nat) : Nat :=
  (p &&& 0xffffffff) ||| (((2 ^ 64 - 1 - p) <<< 32) % 2 ^ 64)

/-- Loop of memset_ad: k words remain to be written, p is the current
    pattern value, kept below 2 ^ 64 by the mod on the increment by 8. -/
def memset_adGo : Nat → Nat → List Nat
  | _, 0 => []
  | p, k + 1 => patWord p :: memset_adGo ((p + 8) % 2 ^ 64) k

/-- Buffer produced by memset_ad from the source: the loop
    for i from 0 to size stepping by 8 writes one 8-byte word per step,
    so ceil of size over 8 words are written, starting from the 64-bit
    seed and incrementing the seed by 8 per word. -/
def memset_ad (pattern size : Nat) : List Nat :=
  memset_adGo (pattern % 2 ^ 64) ((size + 7) / 8)

/-- Observable outcome of memcmp2: the rc the function returns, how many
    individual mismatch lines it printed, and how many words it examined
    before returning. -/
structure CmpOut where
  rc : Nat
  logged : Nat
  examined : Nat
deriving DecidableEq

/-- Loop of memcmp2 with accumulator rc, over the two word lists
    (dest is the data read back, src the expected data). Mirrors the
    source: on a mismatching word a line is printed and rc incremented,
    and when rc exceeds 10 the function jumps to its exit label with that
    rc; when the scan instead reaches the end of the buffer the source
    executes rc = 0 just before the exit label, so a completed scan
    returns 0 no matter how many mismatches were seen on the way. -/
def memcmp2Go : List Nat → List Nat → Nat → CmpOut
  | d :: ds, e :: es, rc =>
    if d ≠ e then
      let rc1 := rc + 1
      if rc1 > 10 then ⟨rc1, 1, 1⟩
      else
        let o := memcmp2Go ds es rc1
        ⟨o.rc, o.logged + 1, o.examined + 1⟩
    else
      let o := memcmp2Go ds es rc
      ⟨o.rc, o.logged, o.examined + 1⟩
  | _, _, _ => ⟨0, 0, 0⟩

/-- Return value of memcmp2 as seen by its caller. -/
def memcmp2 (dest src : List Nat) : Nat :=
  (memcmp2Go dest src 0).rc

/-- Number of mismatching word pairs between two buffers. -/
def mismatchCount (dest src : List Nat) : Nat :=
  (dest.zip src).countP (fun p => p.1 != p.2)

theorem memcmp2Go_rc_eq (d : List Nat) : ∀ (s : List Nat) (rc : Nat), rc ≤ 10 →
    (memcmp2Go d s rc).rc = if rc + mismatchCount d s ≤ 10 then 0 else 11 := by
  induction d with
  | nil =>
    intro s rc h
    simp [memcmp2Go, mismatchCount, Nat.le_of_lt, h]
  | cons x ds ih =>
    intro s rc h
    cases s with
    | nil => simp [memcmp2Go, mismatchCount, h]
    | cons y es =>
      by_cases hxy : x = y
      · subst hxy
        have : mismatchCount (x :: ds) (x :: es) = mismatchCount ds es := by
          simp [mismatchCount, List.zip_cons_cons, List.countP_cons]
        rw [this]
        simpa [memcmp2Go] using ih es rc h
      · have hmc : mismatchCount (x :: ds) (y :: es) = mismatchCount ds es + 1 := by
          simp [mismatchCount, List.zip_cons_cons, List.countP_cons, bne_iff_ne, hxy]
        rw [hmc]
        by_cases h10 : rc = 10
        · subst h10
          have : memcmp2Go (x :: ds) (y :: es) 10 = ⟨11, 1, 1⟩ := by
            simp [memcmp2Go, hxy]
          rw [this]
          have : ¬ (10 + (mismatchCount ds es + 1) ≤ 10) := by omega
          simp [this]
        · have hlt : rc + 1 ≤ 10 := by omega
          have hgo : memcmp2Go (x :: ds) (y :: es) rc =
              ⟨(memcmp2Go ds es (rc + 1)).rc, (memcmp2Go ds es (rc + 1)).logged + 1,
                (memcmp2Go ds es (rc + 1)).examined + 1⟩ := by
            have hnot : ¬ (rc + 1 > 10) := by omega
            simp [memcmp2Go, hxy, hnot]
          rw [hgo]
          have := ih es (rc + 1) hlt
          simp only [this]
          split_ifs <;> omega

/-- Claim C1 (amended): for equal-length buffers, memcmp2 returns 0 when
    at most 10 words mismatch (in particular on an exact match) and 11
    when at least 11 words mismatch; a completed scan resets rc to 0, so
    the result is never the mismatch count itself when that count is
    between 1 and 10, and it is nonzero only when more than 10 words
    differ. -/
theorem claim_C1_amended (dest src : List Nat) (h : dest.length = src.length) :
    memcmp2 dest src = if mismatchCount dest src ≤ 10 then 0 else 11 := by
  have h0 : (0 : Nat) ≤ 10 := by omega
  simpa [memcmp2] using memcmp2Go_rc_eq dest src 0 h0

/-- Claim C1 counterexample: the one-word buffers with words 1 and 2
    differ in their only word, yet memcmp2 returns 0 — refuting the claim
    that the result equals the number of mismatching words and is nonzero
    whenever at least one word differs. -/
theorem claim_C1_counterexample :
    memcmp2 [1] [2] = 0 ∧ (1 : Nat) ≠ 2 := by decide

/-- Claim C1 witness: concrete instance of the amended statement, two
    two-word buffers differing in one word. -/
theorem claim_C1_witness :
    memcmp2 [1, 5] [2, 5] = if mismatchCount [1, 5] [2, 5] ≤ 10 then 0 else 11 :=
  claim_C1_amended [1, 5] [2, 5] (by decide)

theorem memcmp2Go_allDiff (d : List Nat) : ∀ (s : List Nat) (rc : Nat),
    ((d.zip s).all fun p => p.1 != p.2) = true → rc ≤ 10 → 11 - rc ≤ d.length →
    d.length ≤ s.length → memcmp2Go d s rc = ⟨11, 11 - rc, 11 - rc⟩ := by
  induction d with
  | nil =>
    intro s rc _ hrc hlen _
    simp at hlen
    omega
  | cons x ds ih =>
    intro s rc hall hrc hlen hls
    cases s with
    | nil => simp at hls
    | cons y es =>
      rw [List.zip_cons_cons, List.all_cons] at hall
      have hxy : x ≠ y := by
        have := (Bool.and_eq_true _ _).mp hall |>.1
        simpa [bne_iff_ne] using this
      have hall2 := (Bool.and_eq_true _ _).mp hall |>.2
      by_cases h10 : rc = 10
      · subst h10
        have hstep : memcmp2Go (x :: ds) (y :: es) 10 = ⟨11, 1, 1⟩ := by
          simp [memcmp2Go, hxy]
        rw [hstep]
      · have hlt : rc + 1 ≤ 10 := by omega
        have hnot : ¬ (rc + 1 > 10) := by omega
        have hlen2 : 11 - (rc + 1) ≤ ds.length := by
          simp at hlen
          omega
        have hls2 : ds.length ≤ es.length := by simpa using hls
        have hrec := ih es (rc + 1) hall2 hlt hlen2 hls2
        have hgo : memcmp2Go (x :: ds) (y :: es) rc =
            ⟨(memcmp2Go ds es (rc + 1)).rc, (memcmp2Go ds es (rc + 1)).logged + 1,
              (memcmp2Go ds es (rc + 1)).examined + 1⟩ := by
          simp [memcmp2Go, hxy, hnot]
        rw [hgo, hrec]
        show (⟨11, 11 - (rc + 1) + 1, 11 - (rc + 1) + 1⟩ : CmpOut) = ⟨11, 11 - rc, 11 - rc⟩
        have h1 : 11 - (rc + 1) + 1 = 11 - rc := by omega
        rw [h1]

/-- Claim C6 (amended): on equal-length buffers of at least 11 words that
    differ in every word, memcmp2 prints exactly 11 individual mismatch
    lines (not 10), examines exactly the first 11 words — so it does not
    scan the whole buffer when the buffer is longer than 11 words — and
    returns 11, which is nonzero. -/
theorem claim_C6_amended (dest src : List Nat) (hlen : dest.length = src.length)
    (hall : ((dest.zip src).all fun p => p.1 != p.2) = true) (h11 : 11 ≤ dest.length) :
    memcmp2Go dest src 0 = ⟨11, 11, 11⟩ :=
  memcmp2Go_allDiff dest src 0 hall (by omega) (by omega) (by omega)

/-- Claim C6 counterexample: twelve-word buffers differing in every word.
    The comparator prints 11 mismatch lines, not the claimed 10, and
    examines only 11 of the 12 words, so it does not scan the entire
    buffer before returning. -/
theorem claim_C6_counterexample :
    (((([1, 2, 3, 4, 5, 6, 7, 8, 9, 10, 11, 12] : List Nat).zip
        [0, 0, 0, 0, 0, 0, 0, 0, 0, 0, 0, 0]).all fun p => p.1 != p.2) = true)
    ∧ (memcmp2Go [1, 2, 3, 4, 5, 6, 7, 8, 9, 10, 11, 12]
        [0, 0, 0, 0, 0, 0, 0, 0, 0, 0, 0, 0] 0).logged ≠ 10
    ∧ (memcmp2Go [1, 2, 3, 4, 5, 6, 7, 8, 9, 10, 11, 12]
        [0, 0, 0, 0, 0, 0, 0, 0, 0, 0, 0, 0] 0).examined ≠ 12 := by decide

/-- Claim C6 witness: concrete instance of the amended statement on
    twelve-word buffers differing in every word. -/
theorem claim_C6_witness :
    memcmp2Go [1, 2, 3, 4, 5, 6, 7, 8, 9, 10, 11, 12]
      [0, 0, 0, 0, 0, 0, 0, 0, 0, 0, 0, 0] 0 = ⟨11, 11, 11⟩ :=
  claim_C6_amended [1, 2, 3, 4, 5, 6, 7, 8, 9, 10, 11, 12]
    [0, 0, 0, 0, 0, 0, 0, 0, 0, 0, 0, 0] (by decide) (by decide) (by decide)

/-- Closed form claimed by the spec for word i of a fill with seed S:
    the low 32 bits of S + 8 i, with the complement of S + 8 i shifted
    into the high 32 bits, all in 64-bit arithmetic. -/
def specWord (S i : Nat) : Nat :=
  patWord ((S + 8 * i) % 2 ^ 64)

theorem memset_adGo_getD (k : Nat) : ∀ (p i : Nat), i < k →
    (memset_adGo (p % 2 ^ 64) k).getD i 0 = patWord ((p + 8 * i) % 2 ^ 64) := by
  induction k with
  | zero => intro p i h; omega
  | succ k ih =>
    intro p i h
    cases i with
    | zero => simp [memset_adGo]
    | succ i =>
      have hstep : (p % 2 ^ 64 + 8) % 2 ^ 64 = (p + 8) % 2 ^ 64 := Nat.mod_add_mod p (2 ^ 64) 8
      have : (memset_adGo (p % 2 ^ 64) (k + 1)).getD (i + 1) 0 =
          (memset_adGo ((p + 8) % 2 ^ 64) k).getD i 0 := by
        simp [memset_adGo, hstep]
      rw [this, ih (p + 8) i (by omega)]
      have harg : p + 8 + 8 * i = p + 8 * (i + 1) := by omega
      rw [harg]

theorem memcmp2Go_self (l : List Nat) : ∀ rc, (memcmp2Go l l rc).rc = 0 := by
  induction l with
  | nil => intro rc; rfl
  | cons x xs ih => intro rc; simp [memcmp2Go, ih rc]

/-- Claim C7: the pattern fill writes word i exactly as the claimed
    64-bit expression over seed S, is deterministic, and two buffers
    filled with the same seed and size compare equal: memcmp2 on them
    returns 0. -/
theorem claim_C7_pattern (S N : Nat) (h8 : N % 8 = 0) :
    (((List.range (N / 8)).all fun i => (memset_ad S N).getD i 0 == specWord S i) = true)
    ∧ memset_ad S N = memset_ad S N
    ∧ memcmp2 (memset_ad S N) (memset_ad S N) = 0 := by
  refine ⟨?_, rfl, ?_⟩
  · rw [List.all_eq_true]
    intro i hi
    have hi' : i < N / 8 := List.mem_range.mp hi
    have hk : (N + 7) / 8 = N / 8 := by omega
    have := memset_adGo_getD (N / 8) S i hi'
    rw [beq_iff_eq, memset_ad, hk, this]
    rfl
  · exact memcmp2Go_self (memset_ad S N) 0

/-- Claim C7 witness: seed 0x1000 and size 512 bytes, the concrete
    scenario named by the spec. -/
theorem claim_C7_witness :
    (((List.range (512 / 8)).all
        fun i => (memset_ad 4096 512).getD i 0 == specWord 4096 i) = true)
    ∧ memset_ad 4096 512 = memset_ad 4096 512
    ∧ memcmp2 (memset_ad 4096 512) (memset_ad 4096 512) = 0 :=
  claim_C7_pattern 4096 512 (by decide)

/- Queue submitter model. The two hardware registers the submitter reads
   (STATUS_REG and TRACK_REG) are modelled by two oracles, one value per
   read, indexed by how many reads of that register have happened so far;
   this quantifies over every sequence of register values the hardware
   could return. The two busy-poll loops of the source have no bound, so
   they take a fuel argument and the whole run returns none when the
   fuel runs out, which models non-termination. -/

def DPTR_LOW : Nat := 0x00
def DPTR_HIGH : Nat := 0x04
def LBA_LOW : Nat := 0x08
def LBA_HIGH : Nat := 0x0c
def LBA_NUM : Nat := 0x10
def COMMAND_REG : Nat := 0x14
def CMD_QUEUE_ID_SSD0_IOQ : Nat := 1 <<< 4
def CMD_QUEUE_ID_SSD1_IOQ : Nat := 3 <<< 4
def CMD_ACTION_ID (aid : Nat) : Nat := aid <<< 8
def SUB_Q_FULL_SSD0_IO : Nat := 0x02
def SUB_Q_FULL_SSD1_IO : Nat := 0x08

/-- One observable hardware access of the storage-queue window: a read of
    the status register returning v, a read of the track register
    returning v, or a 32-bit write of v to the register at addr. -/
inductive NvmeEv where
  | readStatus (v : Nat)
  | readTrack (v : Nat)
  | writeReg (addr v : Nat)
deriving DecidableEq

/-- State of the submission loop: how many status reads and track reads
    have been consumed, the in-flight counter qin (a C int), and the two
    32-bit registers lba_low and dptr_low the loop advances. -/
structure BurstSt where
  sIdx : Nat
  tIdx : Nat
  qin : Int
  lba_low : Nat
  dptr_low : Nat
deriving DecidableEq

/-- Backpressure wait of the source: read STATUS_REG until the selected
    queue-full bit is clear, the breaking read included in the trace. -/
def pollFull (status : Nat → Nat) (fullBit : Nat) : Nat → Nat → Option (Nat × List NvmeEv)
  | 0, _ => none
  | fuel + 1, sIdx =>
    let v := status sIdx
    if fullBit &&& v = 0 then
      some (sIdx + 1, [NvmeEv.readStatus v])
    else
      match pollFull status fullBit fuel (sIdx + 1) with
      | none => none
      | some (sEnd, evs) => some (sEnd, NvmeEv.readStatus v :: evs)

/-- Opportunistic drain rule of the source: one track-register read of
    value v decrements qin by exactly one when v is positive and leaves
    it unchanged otherwise, whatever the magnitude of v. -/
def trackDecrement (qin : Int) (v : Nat) : Int :=
  if 0 < v then qin - 1 else qin

/-- One iteration of the main submission loop: backpressure wait, one
    track-register read with the one-per-nonzero-read decrement, the
    three submission writes (DPTR_LOW, LBA_LOW, COMMAND_REG), qin
    increment, and the 32-bit advance of lba_low by blocks and of
    dptr_low by 512 * blocks. Besides the successor state it returns the
    events of the iteration and the values qin takes at its two mutation
    points, in order. -/
def burstIter (status track : Nat → Nat) (fullBit cmd_reg blocks pollFuel : Nat)
    (st : BurstSt) : Option (BurstSt × List NvmeEv × List Int) :=
  match pollFull status fullBit pollFuel st.sIdx with
  | none => none
  | some (sIdx1, pollEvs) =>
    let v := track st.tIdx
    let qin1 := trackDecrement st.qin v
    some ({ sIdx := sIdx1, tIdx := st.tIdx + 1, qin := qin1 + 1,
            lba_low := (st.lba_low + blocks) % 2 ^ 32,
            dptr_low := (st.dptr_low + 512 * blocks) % 2 ^ 32 },
          pollEvs ++ [NvmeEv.readTrack v,
                      NvmeEv.writeReg DPTR_LOW st.dptr_low,
                      NvmeEv.writeReg LBA_LOW st.lba_low,
                      NvmeEv.writeReg COMMAND_REG cmd_reg],
          [qin1, qin1 + 1])

/-- The main loop, executed exactly nmax times. -/
def burstLoop (status track : Nat → Nat) (fullBit cmd_reg blocks pollFuel : Nat) :
    Nat → BurstSt → Option (BurstSt × List NvmeEv × List Int)
  | 0, st => some (st, [], [])
  | n + 1, st =>
    match burstIter status track fullBit cmd_reg blocks pollFuel st with
    | none => none
    | some (st1, evs1, qs1) =>
      match burstLoop status track fullBit cmd_reg blocks pollFuel n st1 with
      | none => none
      | some (st2, evs2, qs2) => some (st2, evs1 ++ evs2, qs1 ++ qs2)

/-- Drain phase of the source: while qin is nonzero, read TRACK_REG and
    decrement qin once per nonzero read; the loop condition is tested
    before each read, and the value of qin after each potential decrement
    is recorded. Returns the final qin with the events. -/
def drainLoop (track : Nat → Nat) : Nat → Nat → Int → Option (Int × List NvmeEv × List Int)
  | 0, _, qin => if qin = 0 then some (qin, [], []) else none
  | f + 1, tIdx, qin =>
    if qin = 0 then some (qin, [], [])
    else
      match drainLoop track f (tIdx + 1) (trackDecrement qin (track tIdx)) with
      | none => none
      | some (qEnd, evs, qs) =>
        some (qEnd, NvmeEv.readTrack (track tIdx) :: evs,
          trackDecrement qin (track tIdx) :: qs)

/-- Queue-full status bit for the I/O queue of the selected drive. -/
def fullBitFor (drive : Nat) : Nat :=
  if drive = 1 then SUB_Q_FULL_SSD1_IO else SUB_Q_FULL_SSD0_IO

/-- Command word for the selected drive: read opcode 0, the I/O queue
    selector of the drive, and the fixed action id 0xef. -/
def cmdRegFor (drive : Nat) : Nat :=
  (if drive = 1 then CMD_QUEUE_ID_SSD1_IOQ else CMD_QUEUE_ID_SSD0_IOQ) ||| CMD_ACTION_ID 0xef

/-- Hardware oracles and fuel for one run of the queue submitter. -/
structure BurstEnv where
  status : Nat → Nat
  track : Nat → Nat
  pollFuel : Nat
  drainFuel : Nat

/-- Result of a terminating run of nvme_read_test: the C return value
    (always 0), the final value of qin when the function returns, the
    trace of hardware accesses, and every intermediate value the counter
    qin takes, starting from its initial 0. -/
structure BurstOut where
  rc : Int
  qinFinal : Int
  trace : List NvmeEv
  qins : List Int
deriving DecidableEq

/-- Model of nvme_read_test: the three per-run setup writes (DPTR_HIGH is
    programmed with 2, LBA_HIGH with 0, LBA_NUM with blocks), qin
    initialised to 0, the main loop run nmax times from lba_low and
    dptr_low both 0, and the drain phase. -/
def nvme_read_test (env : BurstEnv) (drive blocks nmax : Nat) : Option BurstOut :=
  match burstLoop env.status env.track (fullBitFor drive) (cmdRegFor drive) blocks
      env.pollFuel nmax ⟨0, 0, 0, 0, 0⟩ with
  | none => none
  | some (st, loopEvs, loopQs) =>
    match drainLoop env.track env.drainFuel st.tIdx st.qin with
    | none => none
    | some (qEnd, drainEvs, drainQs) =>
      some ⟨0, qEnd,
        [NvmeEv.writeReg DPTR_HIGH 2, NvmeEv.writeReg LBA_HIGH 0,
         NvmeEv.writeReg LBA_NUM blocks] ++ loopEvs ++ drainEvs,
        0 :: (loopQs ++ drainQs)⟩

theorem trackDecrement_ge (qin : Int) (v : Nat) :
    qin - 1 ≤ trackDecrement qin v ∧ trackDecrement qin v ≤ qin := by
  unfold trackDecrement
  split <;> omega

theorem trackDecrement_eq (qin : Int) (v : Nat) :
    trackDecrement qin v = qin - (if 0 < v then 1 else 0) := by
  unfold trackDecrement
  split_ifs <;> omega

theorem drainLoop_final (track : Nat → Nat) : ∀ (fuel tIdx : Nat) (qin qEnd : Int)
    (evs : List NvmeEv) (qs : List Int),
    drainLoop track fuel tIdx qin = some (qEnd, evs, qs) → qEnd = 0 := by
  intro fuel
  induction fuel with
  | zero =>
    intro tIdx qin qEnd evs qs h
    by_cases h0 : qin = 0
    · simp [drainLoop, h0] at h
      omega
    · simp [drainLoop, h0] at h
  | succ f ih =>
    intro tIdx qin qEnd evs qs h
    by_cases h0 : qin = 0
    · simp [drainLoop, h0] at h
      omega
    · rw [drainLoop, if_neg h0] at h
      rcases hrec : drainLoop track f (tIdx + 1) (trackDecrement qin (track tIdx)) with _ | ⟨q2, evs2, qs2⟩
      · rw [hrec] at h
        simp at h
      · rw [hrec] at h
        simp only [Option.some.injEq, Prod.mk.injEq] at h
        exact h.1 ▸ ih (tIdx + 1) (trackDecrement qin (track tIdx)) q2 evs2 qs2 hrec

theorem drainLoop_qins (track : Nat → Nat) : ∀ (fuel tIdx : Nat) (qin qEnd : Int)
    (evs : List NvmeEv) (qs : List Int), 0 ≤ qin →
    drainLoop track fuel tIdx qin = some (qEnd, evs, qs) → ∀ q ∈ qs, 0 ≤ q := by
  intro fuel
  induction fuel with
  | zero =>
    intro tIdx qin qEnd evs qs hq h
    by_cases h0 : qin = 0
    · simp [drainLoop, h0] at h
      obtain ⟨-, -, h3⟩ := h
      subst h3
      intro q hmem
      simp at hmem
    · simp [drainLoop, h0] at h
  | succ f ih =>
    intro tIdx qin qEnd evs qs hq h
    by_cases h0 : qin = 0
    · simp [drainLoop, h0] at h
      obtain ⟨-, -, h3⟩ := h
      subst h3
      intro q hmem
      simp at hmem
    · rw [drainLoop, if_neg h0] at h
      rcases hrec : drainLoop track f (tIdx + 1) (trackDecrement qin (track tIdx)) with _ | ⟨q2, evs2, qs2⟩
      · rw [hrec] at h
        simp at h
      · rw [hrec] at h
        simp only [Option.some.injEq, Prod.mk.injEq] at h
        obtain ⟨-, -, h3⟩ := h
        have hd := trackDecrement_ge qin (track tIdx)
        have hq1 : 0 ≤ trackDecrement qin (track tIdx) := by omega
        intro q hmem
        rw [← h3] at hmem
        simp at hmem
        rcases hmem with h4 | h4
        · omega
        · exact ih (tIdx + 1) (trackDecrement qin (track tIdx)) q2 evs2 qs2 hq1 hrec q h4

theorem burstIter_qins (status track : Nat → Nat) (fullBit cmd_reg blocks pollFuel : Nat)
    (st st1 : BurstSt) (evs : List NvmeEv) (qs : List Int) (hq : 0 ≤ st.qin)
    (h : burstIter status track fullBit cmd_reg blocks pollFuel st = some (st1, evs, qs)) :
    (∀ q ∈ qs, -1 ≤ q) ∧ 0 ≤ st1.qin := by
  unfold burstIter at h
  rcases hpoll : pollFull status fullBit pollFuel st.sIdx with _ | ⟨sIdx1, pollEvs⟩
  · rw [hpoll] at h
    simp at h
  · rw [hpoll] at h
    simp only [Option.some.injEq, Prod.mk.injEq] at h
    obtain ⟨hst, -, hqs⟩ := h
    have hd := trackDecrement_ge st.qin (track st.tIdx)
    constructor
    · intro q hmem
      rw [← hqs] at hmem
      simp at hmem
      rcases hmem with h1 | h1 <;> omega
    · rw [← hst]
      show 0 ≤ trackDecrement st.qin (track st.tIdx) + 1
      omega

theorem burstLoop_qins (status track : Nat → Nat) (fullBit cmd_reg blocks pollFuel : Nat) :
    ∀ (n : Nat) (st st2 : BurstSt) (evs : List NvmeEv) (qs : List Int), 0 ≤ st.qin →
    burstLoop status track fullBit cmd_reg blocks pollFuel n st = some (st2, evs, qs) →
    (∀ q ∈ qs, -1 ≤ q) ∧ 0 ≤ st2.qin := by
  intro n
  induction n with
  | zero =>
    intro st st2 evs qs hq h
    simp [burstLoop] at h
    obtain ⟨h1, -, h3⟩ := h
    subst h3
    refine ⟨?_, h1 ▸ hq⟩
    intro q hmem
    simp at hmem
  | succ n ih =>
    intro st st2 evs qs hq h
    rw [burstLoop] at h
    rcases hit : burstIter status track fullBit cmd_reg blocks pollFuel st with _ | ⟨st1, evs1, qs1⟩
    · rw [hit] at h
      simp at h
    · rw [hit] at h
      simp only [Option.some.injEq] at h
      rcases hrec : burstLoop status track fullBit cmd_reg blocks pollFuel n st1 with _ | ⟨st2b, evs2, qs2⟩
      · rw [hrec] at h
        simp at h
      · rw [hrec] at h
        simp only [Option.some.injEq, Prod.mk.injEq] at h
        obtain ⟨hst, -, hqs⟩ := h
        have h1 := burstIter_qins status track fullBit cmd_reg blocks pollFuel st st1 evs1 qs1 hq hit
        have h2 := ih st1 st2b evs2 qs2 h1.2 hrec
        constructor
        · intro q hmem
          rw [← hqs] at hmem
          rcases List.mem_append.mp hmem with hm | hm
          · exact h1.1 q hm
          · exact h2.1 q hm
        · exact hst ▸ h2.2

theorem nvme_read_test_qins (env : BurstEnv) (drive blocks nmax : Nat) (out : BurstOut)
    (hrun : nvme_read_test env drive blocks nmax = some out) :
    (∀ q ∈ out.qins, -1 ≤ q) ∧ out.qinFinal = 0 := by
  unfold nvme_read_test at hrun
  rcases hloop : burstLoop env.status env.track (fullBitFor drive) (cmdRegFor drive) blocks
      env.pollFuel nmax ⟨0, 0, 0, 0, 0⟩ with _ | ⟨st, loopEvs, loopQs⟩
  · rw [hloop] at hrun
    simp at hrun
  · rw [hloop] at hrun
    simp only [Option.some.injEq] at hrun
    rcases hdr : drainLoop env.track env.drainFuel st.tIdx st.qin with _ | ⟨qEnd, drainEvs, drainQs⟩
    · rw [hdr] at hrun
      simp at hrun
    · rw [hdr] at hrun
      simp only [Option.some.injEq] at hrun
      have hb := burstLoop_qins env.status env.track (fullBitFor drive) (cmdRegFor drive) blocks
        env.pollFuel nmax ⟨0, 0, 0, 0, 0⟩ st loopEvs loopQs (by simp) hloop
      have hd := drainLoop_qins env.track env.drainFuel st.tIdx st.qin qEnd drainEvs drainQs
        hb.2 hdr
      have hf := drainLoop_final env.track env.drainFuel st.tIdx st.qin qEnd drainEvs drainQs hdr
      constructor
      · intro q hmem
        rw [← hrun] at hmem
        simp at hmem
        rcases hmem with h1 | h1 | h1
        · omega
        · exact hb.1 q h1
        · have := hd q h1
          omega
      · rw [← hrun]
        exact hf

/-- Claim C2 (amended): across every terminating run of the queue
    submitter, for every sequence of status- and track-register values,
    the in-flight counter qin stays at or above -1; it can transiently
    reach -1 inside a loop iteration, when a positive track-register read
    arrives while qin is 0 and is consumed before the increment that
    follows the submission. -/
theorem claim_C2_amended (env : BurstEnv) (drive blocks nmax : Nat)
    (h : (nvme_read_test env drive blocks nmax).isSome = true) :
    (((nvme_read_test env drive blocks nmax).get h).qins.all
      fun q => decide (-1 ≤ q)) = true := by
  obtain ⟨out, hrun⟩ := Option.isSome_iff_exists.mp h
  have hget : (nvme_read_test env drive blocks nmax).get h = out :=
    Option.get_of_mem h (Option.mem_def.mpr hrun)
  rw [hget, List.all_eq_true]
  intro q hmem
  have := (nvme_read_test_qins env drive blocks nmax out hrun).1 q hmem
  simpa using this

/-- Claim C2 counterexample: with the status register always reading 0
    and the track register always reading 1, a single-iteration run
    terminates and the counter qin takes the value -1 at the point after
    the track-read decrement of the first iteration, so qin is not at or
    above zero at every point of every run. -/
theorem claim_C2_counterexample :
    (nvme_read_test ⟨fun _ => 0, fun _ => 1, 4, 4⟩ 0 1 1).map
      (fun out => out.qins.all fun q => decide (0 ≤ q)) = some false := by decide

/-- Claim C2 witness: a concrete two-iteration run of the amended
    statement. -/
theorem claim_C2_witness :
    (((nvme_read_test ⟨fun _ => 0, fun _ => 1, 4, 4⟩ 0 1 2).get (by decide)).qins.all
      fun q => decide (-1 ≤ q)) = true :=
  claim_C2_amended ⟨fun _ => 0, fun _ => 1, 4, 4⟩ 0 1 2 (by decide)

/-- Claim C3: whenever the queue submitter returns, the in-flight counter
    is zero — the drain phase decrements once per nonzero read of the
    completion/track register and its loop only exits when the counter
    reaches zero. -/
theorem claim_C3_drain (env : BurstEnv) (drive blocks nmax : Nat)
    (h : (nvme_read_test env drive blocks nmax).isSome = true) :
    ((nvme_read_test env drive blocks nmax).get h).qinFinal = 0 := by
  obtain ⟨out, hrun⟩ := Option.isSome_iff_exists.mp h
  have hget : (nvme_read_test env drive blocks nmax).get h = out :=
    Option.get_of_mem h (Option.mem_def.mpr hrun)
  rw [hget]
  exact (nvme_read_test_qins env drive blocks nmax out hrun).2

/-- Claim C3 witness: a concrete terminating run in which three commands
    are submitted and drained. -/
theorem claim_C3_witness :
    ((nvme_read_test ⟨fun _ => 0, fun _ => 1, 4, 8⟩ 0 1 3).get (by decide)).qinFinal = 0 :=
  claim_C3_drain ⟨fun _ => 0, fun _ => 1, 4, 8⟩ 0 1 3 (by decide)

/-- Most recently observed status-register value after a list of events,
    given the one observed before them. -/
def lastStatus : List NvmeEv → Option Nat → Option Nat
  | [], l => l
  | NvmeEv.readStatus v :: rest, _ => lastStatus rest (some v)
  | NvmeEv.readTrack _ :: rest, l => lastStatus rest l
  | NvmeEv.writeReg _ _ :: rest, l => lastStatus rest l

/-- Checker for the backpressure property: scanning the trace while
    tracking the most recently observed status value, every write to
    COMMAND_REG — a submission — must happen at a moment when a status
    value has been observed and its selected queue-full bit is clear. -/
def submitRespectsFull (fullBit : Nat) : List NvmeEv → Option Nat → Bool
  | [], _ => true
  | NvmeEv.readStatus v :: rest, _ => submitRespectsFull fullBit rest (some v)
  | NvmeEv.readTrack _ :: rest, l => submitRespectsFull fullBit rest l
  | NvmeEv.writeReg a _ :: rest, l =>
    if a = COMMAND_REG then
      (match l with
       | some v => fullBit &&& v == 0
       | none => false) && submitRespectsFull fullBit rest l
    else submitRespectsFull fullBit rest l

theorem lastStatus_append (xs ys : List NvmeEv) : ∀ l,
    lastStatus (xs ++ ys) l = lastStatus ys (lastStatus xs l) := by
  induction xs with
  | nil => intro l; rfl
  | cons e rest ih =>
    intro l
    cases e <;> simp [lastStatus, ih]

theorem submitRespectsFull_append (fullBit : Nat) (xs ys : List NvmeEv) : ∀ l,
    submitRespectsFull fullBit (xs ++ ys) l =
      (submitRespectsFull fullBit xs l && submitRespectsFull fullBit ys (lastStatus xs l)) := by
  induction xs with
  | nil => intro l; simp [submitRespectsFull, lastStatus]
  | cons e rest ih =>
    intro l
    cases e with
    | readStatus v => simp [submitRespectsFull, lastStatus, ih]
    | readTrack v => simp [submitRespectsFull, lastStatus, ih]
    | writeReg a v =>
      by_cases ha : a = COMMAND_REG
      · simp [submitRespectsFull, lastStatus, ha, ih, Bool.and_assoc]
      · simp [submitRespectsFull, lastStatus, ha, ih]

theorem pollFull_spec (status : Nat → Nat) (fullBit : Nat) : ∀ (fuel sIdx sEnd : Nat)
    (evs : List NvmeEv), pollFull status fullBit fuel sIdx = some (sEnd, evs) →
    ∃ v, fullBit &&& v = 0 ∧
      (∀ l, lastStatus evs l = some v) ∧
      (∀ l, submitRespectsFull fullBit evs l = true) ∧
      (∀ e ∈ evs, ∃ w, e = NvmeEv.readStatus w) := by
  intro fuel
  induction fuel with
  | zero =>
    intro sIdx sEnd evs h
    simp [pollFull] at h
  | succ f ih =>
    intro sIdx sEnd evs h
    rw [pollFull] at h
    by_cases hc : fullBit &&& status sIdx = 0
    · rw [if_pos hc] at h
      simp only [Option.some.injEq, Prod.mk.injEq] at h
      obtain ⟨-, hevs⟩ := h
      refine ⟨status sIdx, hc, ?_, ?_, ?_⟩
      · intro l
        rw [← hevs]
        rfl
      · intro l
        rw [← hevs]
        rfl
      · intro e he
        rw [← hevs] at he
        simp at he
        exact ⟨status sIdx, he⟩
    · rw [if_neg hc] at h
      rcases hrec : pollFull status fullBit f (sIdx + 1) with _ | ⟨s2, evs2⟩
      · rw [hrec] at h
        simp at h
      · rw [hrec] at h
        simp only [Option.some.injEq, Prod.mk.injEq] at h
        obtain ⟨-, hevs⟩ := h
        obtain ⟨w, hw, hlast, hsub, hmem⟩ := ih (sIdx + 1) s2 evs2 hrec
        refine ⟨w, hw, ?_, ?_, ?_⟩
        · intro l
          rw [← hevs]
          exact hlast (some (status sIdx))
        · intro l
          rw [← hevs]
          exact hsub (some (status sIdx))
        · intro e he
          rw [← hevs] at he
          simp at he
          rcases he with he | he
          · exact ⟨status sIdx, he⟩
          · exact hmem e he

theorem burstIter_submit (status track : Nat → Nat) (fullBit cmd_reg blocks pollFuel : Nat)
    (st st1 : BurstSt) (evs : List NvmeEv) (qs : List Int)
    (h : burstIter status track fullBit cmd_reg blocks pollFuel st = some (st1, evs, qs)) :
    (∀ l, submitRespectsFull fullBit evs l = true) ∧
    (∃ v, (∀ l, lastStatus evs l = some v) ∧ fullBit &&& v = 0) := by
  unfold burstIter at h
  rcases hpoll : pollFull status fullBit pollFuel st.sIdx with _ | ⟨sIdx1, pollEvs⟩
  · rw [hpoll] at h
    simp at h
  · rw [hpoll] at h
    simp only [Option.some.injEq, Prod.mk.injEq] at h
    obtain ⟨-, hevs, -⟩ := h
    obtain ⟨v, hv, hlast, hsub, -⟩ := pollFull_spec status fullBit pollFuel st.sIdx sIdx1 pollEvs hpoll
    constructor
    · intro l
      rw [← hevs, submitRespectsFull_append, hsub l, hlast l]
      simp [submitRespectsFull, COMMAND_REG, DPTR_LOW, LBA_LOW, hv]
    · refine ⟨v, ?_, hv⟩
      intro l
      rw [← hevs, lastStatus_append, hlast l]
      rfl

theorem burstLoop_submit (status track : Nat → Nat) (fullBit cmd_reg blocks pollFuel : Nat) :
    ∀ (n : Nat) (st st2 : BurstSt) (evs : List NvmeEv) (qs : List Int),
    burstLoop status track fullBit cmd_reg blocks pollFuel n st = some (st2, evs, qs) →
    ∀ l, submitRespectsFull fullBit evs l = true := by
  intro n
  induction n with
  | zero =>
    intro st st2 evs qs h l
    simp [burstLoop] at h
    obtain ⟨-, h2, -⟩ := h
    subst h2
    rfl
  | succ n ih =>
    intro st st2 evs qs h l
    rw [burstLoop] at h
    rcases hit : burstIter status track fullBit cmd_reg blocks pollFuel st with _ | ⟨st1, evs1, qs1⟩
    · rw [hit] at h
      simp at h
    · rw [hit] at h
      simp only [Option.some.injEq] at h
      rcases hrec : burstLoop status track fullBit cmd_reg blocks pollFuel n st1 with _ | ⟨st2b, evs2, qs2⟩
      · rw [hrec] at h
        simp at h
      · rw [hrec] at h
        simp only [Option.some.injEq, Prod.mk.injEq] at h
        obtain ⟨-, hevs, -⟩ := h
        have h1 := burstIter_submit status track fullBit cmd_reg blocks pollFuel st st1 evs1 qs1 hit
        rw [← hevs, submitRespectsFull_append, h1.1 l, ih st1 st2b evs2 qs2 hrec _]
        rfl

theorem drainLoop_submit (track : Nat → Nat) : ∀ (fuel tIdx : Nat) (qin qEnd : Int)
    (evs : List NvmeEv) (qs : List Int),
    drainLoop track fuel tIdx qin = some (qEnd, evs, qs) →
    ∀ (fullBit : Nat) (l : Option Nat), submitRespectsFull fullBit evs l = true := by
  intro fuel
  induction fuel with
  | zero =>
    intro tIdx qin qEnd evs qs h fullBit l
    by_cases h0 : qin = 0
    · simp [drainLoop, h0] at h
      obtain ⟨-, h2, -⟩ := h
      subst h2
      rfl
    · simp [drainLoop, h0] at h
  | succ f ih =>
    intro tIdx qin qEnd evs qs h fullBit l
    by_cases h0 : qin = 0
    · simp [drainLoop, h0] at h
      obtain ⟨-, h2, -⟩ := h
      subst h2
      rfl
    · rw [drainLoop, if_neg h0] at h
      rcases hrec : drainLoop track f (tIdx + 1) (trackDecrement qin (track tIdx)) with _ | ⟨q2, evs2, qs2⟩
      · rw [hrec] at h
        simp at h
      · rw [hrec] at h
        simp only [Option.some.injEq, Prod.mk.injEq] at h
        obtain ⟨-, h2, -⟩ := h
        rw [← h2]
        show submitRespectsFull fullBit evs2 l = true
        exact ih (tIdx + 1) (trackDecrement qin (track tIdx)) q2 evs2 qs2 hrec fullBit l

/-- Claim C4: in every terminating run, every write of the command word
    is preceded by a status-register read whose queue-full bit for the
    selected drive is clear, and no submission happens while the most
    recently observed status value has that bit set — for every sequence
    of hardware register values. -/
theorem claim_C4_backpressure (env : BurstEnv) (drive blocks nmax : Nat)
    (h : (nvme_read_test env drive blocks nmax).isSome = true) :
    submitRespectsFull (fullBitFor drive)
      ((nvme_read_test env drive blocks nmax).get h).trace none = true := by
  obtain ⟨out, hrun⟩ := Option.isSome_iff_exists.mp h
  have hget : (nvme_read_test env drive blocks nmax).get h = out :=
    Option.get_of_mem h (Option.mem_def.mpr hrun)
  rw [hget]
  unfold nvme_read_test at hrun
  rcases hloop : burstLoop env.status env.track (fullBitFor drive) (cmdRegFor drive) blocks
      env.pollFuel nmax ⟨0, 0, 0, 0, 0⟩ with _ | ⟨st, loopEvs, loopQs⟩
  · rw [hloop] at hrun
    simp at hrun
  · rw [hloop] at hrun
    simp only [Option.some.injEq] at hrun
    rcases hdr : drainLoop env.track env.drainFuel st.tIdx st.qin with _ | ⟨qEnd, drainEvs, drainQs⟩
    · rw [hdr] at hrun
      simp at hrun
    · rw [hdr] at hrun
      simp only [Option.some.injEq] at hrun
      have htr : out.trace =
          [NvmeEv.writeReg DPTR_HIGH 2, NvmeEv.writeReg LBA_HIGH 0,
           NvmeEv.writeReg LBA_NUM blocks] ++ loopEvs ++ drainEvs := by
        rw [← hrun]
      rw [htr, submitRespectsFull_append, submitRespectsFull_append]
      rw [burstLoop_submit env.status env.track (fullBitFor drive) (cmdRegFor drive) blocks
        env.pollFuel nmax ⟨0, 0, 0, 0, 0⟩ st loopEvs loopQs hloop _]
      rw [drainLoop_submit env.track env.drainFuel st.tIdx st.qin qEnd drainEvs drainQs hdr
        (fullBitFor drive) _]
      rfl

/-- Claim C4 witness: a concrete terminating run where the status
    register reads full once before clearing. -/
theorem claim_C4_witness :
    submitRespectsFull (fullBitFor 0)
      ((nvme_read_test ⟨fun i => if i = 0 then 2 else 0, fun _ => 1, 4, 8⟩ 0 1 2).get
        (by decide)).trace none = true :=
  claim_C4_backpressure ⟨fun i => if i = 0 then 2 else 0, fun _ => 1, 4, 8⟩ 0 1 2 (by decide)

/-- Value carried by a track-register read event, none for other events. -/
def trackReadVal : NvmeEv → Option Nat
  | NvmeEv.readTrack v => some v
  | _ => none

/-- Whether an event is a track-register read. -/
def isTrackRead (e : NvmeEv) : Bool :=
  (trackReadVal e).isSome

/-- Whether an event is a write of the command word, that is, a
    submission. -/
def isCmdWrite : NvmeEv → Bool
  | NvmeEv.writeReg a _ => a == COMMAND_REG
  | _ => false

theorem statusReads_filterMap_track (evs : List NvmeEv)
    (h : ∀ e ∈ evs, ∃ w, e = NvmeEv.readStatus w) :
    evs.filterMap trackReadVal = [] := by
  induction evs with
  | nil => rfl
  | cons e rest ih =>
    obtain ⟨w, hw⟩ := h e (by simp)
    subst hw
    simpa [trackReadVal] using ih (fun x hx => h x (by simp [hx]))

theorem statusReads_takeWhile (evs : List NvmeEv)
    (h : ∀ e ∈ evs, ∃ w, e = NvmeEv.readStatus w) (tail : List NvmeEv) :
    (evs ++ tail).takeWhile (fun e => !(isCmdWrite e)) =
      evs ++ tail.takeWhile (fun e => !(isCmdWrite e)) := by
  induction evs with
  | nil => rfl
  | cons e rest ih =>
    obtain ⟨w, hw⟩ := h e (by simp)
    subst hw
    simpa [isCmdWrite] using ih (fun x hx => h x (by simp [hx]))

theorem statusReads_countP_track (evs : List NvmeEv)
    (h : ∀ e ∈ evs, ∃ w, e = NvmeEv.readStatus w) :
    evs.countP isTrackRead = 0 := by
  induction evs with
  | nil => rfl
  | cons e rest ih =>
    obtain ⟨w, hw⟩ := h e (by simp)
    subst hw
    simpa [List.countP_cons, isTrackRead, trackReadVal]
      using ih (fun x hx => h x (by simp [hx]))

/-- Claim C5: in each iteration of the main loop, the completion/track
    register is read exactly once, that read happens before the command
    write of the iteration, the value the counter qin records after the
    read is its old value minus one when the read value is positive and
    the old value otherwise — never less — and the iteration leaves qin
    at that value plus one after the submission. -/
theorem claim_C5_track_once (status track : Nat → Nat) (fullBit cmd_reg blocks pollFuel : Nat)
    (st : BurstSt)
    (h : (burstIter status track fullBit cmd_reg blocks pollFuel st).isSome = true) :
    ((burstIter status track fullBit cmd_reg blocks pollFuel st).get h).2.1.filterMap
        trackReadVal = [track st.tIdx]
    ∧ (((burstIter status track fullBit cmd_reg blocks pollFuel st).get h).2.1.takeWhile
        (fun e => !(isCmdWrite e))).countP isTrackRead = 1
    ∧ ((burstIter status track fullBit cmd_reg blocks pollFuel st).get h).2.2 =
        [st.qin - (if 0 < track st.tIdx then 1 else 0),
         st.qin - (if 0 < track st.tIdx then 1 else 0) + 1]
    ∧ ((burstIter status track fullBit cmd_reg blocks pollFuel st).get h).1.qin =
        st.qin - (if 0 < track st.tIdx then 1 else 0) + 1 := by
  obtain ⟨r, hrun⟩ := Option.isSome_iff_exists.mp h
  have hget : (burstIter status track fullBit cmd_reg blocks pollFuel st).get h = r :=
    Option.get_of_mem h (Option.mem_def.mpr hrun)
  rw [hget]
  unfold burstIter at hrun
  rcases hpoll : pollFull status fullBit pollFuel st.sIdx with _ | ⟨sIdx1, pollEvs⟩
  · rw [hpoll] at hrun
    simp at hrun
  · rw [hpoll] at hrun
    simp only [Option.some.injEq] at hrun
    obtain ⟨-, -, hlast, -, hmem⟩ := pollFull_spec status fullBit pollFuel st.sIdx sIdx1
      pollEvs hpoll
    rw [← hrun]
    refine ⟨?_, ?_, ?_, ?_⟩
    · rw [List.filterMap_append, statusReads_filterMap_track pollEvs hmem]
      simp [trackReadVal, DPTR_LOW, LBA_LOW, COMMAND_REG]
    · rw [statusReads_takeWhile pollEvs hmem, List.countP_append,
        statusReads_countP_track pollEvs hmem]
      simp [List.takeWhile_cons, List.countP_cons, isCmdWrite, isTrackRead, trackReadVal,
        DPTR_LOW, LBA_LOW, COMMAND_REG]
    · rw [trackDecrement_eq]
    · show trackDecrement st.qin (track st.tIdx) + 1 =
        st.qin - (if 0 < track st.tIdx then 1 else 0) + 1
      rw [trackDecrement_eq]

/-- Claim C5 witness: concrete iteration from the initial state with a
    track-register read of 1, so qin dips from 0 to -1 and is restored to
    0 by the submission increment. -/
theorem claim_C5_witness :
    ((burstIter (fun _ => 0) (fun _ => 1) 2 (cmdRegFor 0) 1 3 ⟨0, 0, 0, 0, 0⟩).get
        (by decide)).2.1.filterMap trackReadVal = [1]
    ∧ (((burstIter (fun _ => 0) (fun _ => 1) 2 (cmdRegFor 0) 1 3 ⟨0, 0, 0, 0, 0⟩).get
        (by decide)).2.1.takeWhile (fun e => !(isCmdWrite e))).countP isTrackRead = 1
    ∧ ((burstIter (fun _ => 0) (fun _ => 1) 2 (cmdRegFor 0) 1 3 ⟨0, 0, 0, 0, 0⟩).get
        (by decide)).2.2 = [-1, 0]
    ∧ ((burstIter (fun _ => 0) (fun _ => 1) 2 (cmdRegFor 0) 1 3 ⟨0, 0, 0, 0, 0⟩).get
        (by decide)).1.qin = 0 :=
  claim_C5_track_once (fun _ => 0) (fun _ => 1) 2 (cmdRegFor 0) 1 3 ⟨0, 0, 0, 0, 0⟩ (by decide)

/- Session driver model. Everything main does after argument parsing is
   modelled: validation with exit code 1 before any hardware access,
   card-handle acquisition, the NVME-enabled check whose abort is
   commented out in the source, buffer allocation, the pattern fill of
   the source buffer with the byte offset as seed, the host-to-card
   copy, the ten-command read burst, the card-to-host copy, and the
   final comparison whose result is the exit code. External outcomes
   (allocation success, copy-engine completion, register values) are
   environment parameters. -/

def NVME_LB_SIZE : Nat := 512
def NVME_DRIVE_SIZE : Nat := 4 * 1024 * 1024 * 1024
def NVME_MAX_TRANSFER_SIZE : Nat := 32 * 1024 * 1024

/-- Largest accepted block count, NVME_MAX_TRANSFER_SIZE / NVME_LB_SIZE. -/
def max_blocks : Nat := NVME_MAX_TRANSFER_SIZE / NVME_LB_SIZE

/-- Direction opcodes for the copy engine. Modelled from the spec: the
    numeric values of ACTION_CONFIG_COPY_HD and ACTION_CONFIG_COPY_DH
    come from the header snap_example.h, which is not in this repository
    snapshot, so the two opcodes are tracked symbolically. -/
inductive CopyCmd where
  | copyHD
  | copyDH
deriving DecidableEq

/-- Copy-engine configuration registers written by action_memcpy.
    Modelled from the spec: the register offsets named ACTION_DEST_LOW
    and so on come from the missing header snap_example.h, so they are
    tracked by name rather than numeric offset. -/
inductive ActionReg where
  | destLow
  | destHigh
  | srcLow
  | srcHigh
  | cnt
deriving DecidableEq

/-- One observable step of the session driver: a copy-engine
    configuration write, a copy-engine data write, an action start plus
    wait-for-idle with its success flag, a storage-queue window access,
    or the error line printed when the card reports NVME not enabled. -/
inductive MainEv where
  | configWrite (c : CopyCmd)
  | actionWrite (r : ActionReg) (v : Nat)
  | startWait (ok : Bool)
  | nvme (e : NvmeEv)
  | logNvmeDisabled
deriving DecidableEq

/-- Register writes of action_memcpy: configuration opcode, destination
    low and high 32-bit halves, source low and high halves, byte count. -/
def actionMemcpyEvs (c : CopyCmd) (dest src n : Nat) : List MainEv :=
  [MainEv.configWrite c,
   MainEv.actionWrite ActionReg.destLow (dest % 2 ^ 32),
   MainEv.actionWrite ActionReg.destHigh (dest / 2 ^ 32),
   MainEv.actionWrite ActionReg.srcLow (src % 2 ^ 32),
   MainEv.actionWrite ActionReg.srcHigh (src / 2 ^ 32),
   MainEv.actionWrite ActionReg.cnt n]

/-- Environment of one invocation: whether the slave and master card
    handles open, what the GET_NVME_ENABLED ioctl reports, the two host
    buffer allocations (an address when successful), whether the action
    attaches, whether each of the two copies completes before its
    timeout, the storage-queue oracles, and the words the destination
    buffer holds after the card-to-host copy. -/
structure MainEnv where
  slaveOk : Bool
  masterOk : Bool
  haveNvme : Bool
  srcBuf : Option Nat
  destBuf : Option Nat
  attachOk : Bool
  copy1Ok : Bool
  copy2Ok : Bool
  burst : BurstEnv
  destData : Nat → Nat

/-- Exit code and observable trace of one invocation of main. -/
structure MainOut where
  rc : Int
  trace : List MainEv
deriving DecidableEq

/-- Argument validation of main, in source order: drive must be 0 or 1,
    blocks must be positive and at most max_blocks, the offset must be
    512-byte aligned and at most the drive size, offset plus transfer
    size must fit in the drive, and the card number is at most 3. Every
    violation makes the program exit with code 1 before any hardware
    access. -/
def validateArgs (card_no drive blocks offset : Nat) : Bool :=
  (drive == 0 || drive == 1) && (blocks != 0) && decide (blocks ≤ max_blocks) &&
  (offset % 512 == 0) && decide (offset ≤ NVME_DRIVE_SIZE) &&
  decide (offset + blocks * NVME_LB_SIZE ≤ NVME_DRIVE_SIZE) && decide (card_no ≤ 3)

/-- Body of main after the card handles are open and the NVME check has
    printed or not printed its line: allocate the two buffers (exit code
    -1 when either fails), fill the source buffer with the offset as
    seed, attach the action (exit code 1 on failure), copy host to card
    and wait (exit code 1 on timeout), run the ten-command read burst,
    copy card to host and wait, and return the comparison result of the
    read-back words against the source buffer as exit code. -/
def mainBody (env : MainEnv) (drive blocks offset : Nat) : Option MainOut :=
  match env.srcBuf, env.destBuf with
  | some srcAddr, some destAddr =>
    let mem_size := blocks * NVME_LB_SIZE
    let srcData := memset_ad offset mem_size
    if env.attachOk = false then some ⟨1, []⟩
    else
      let copy1Evs := actionMemcpyEvs CopyCmd.copyHD 0 srcAddr mem_size ++
        [MainEv.startWait env.copy1Ok]
      if env.copy1Ok = false then some ⟨1, copy1Evs⟩
      else
        match nvme_read_test env.burst drive blocks 10 with
        | none => none
        | some bout =>
          let copy2Evs := actionMemcpyEvs CopyCmd.copyDH destAddr (0 + mem_size) mem_size ++
            [MainEv.startWait env.copy2Ok]
          let evs := copy1Evs ++ bout.trace.map MainEv.nvme ++ copy2Evs
          if env.copy2Ok = false then some ⟨1, evs⟩
          else
            let destWords := (List.range (mem_size / 8)).map env.destData
            some ⟨(memcmp2 destWords srcData : Nat), evs⟩
  | _, _ => some ⟨-1, []⟩

/-- Model of main on already-parsed arguments: validation exits with
    code 1 and no hardware access; failing to open either card handle
    exits with code -1; the NVME-enabled check only prints a line when
    the ioctl reports 0; then the body runs. A none result models a run
    that never returns because a busy-poll loop spins forever. -/
def mainModel (env : MainEnv) (card_no drive blocks offset : Nat) : Option MainOut :=
  if validateArgs card_no drive blocks offset = false then some ⟨1, []⟩
  else if (env.slaveOk && env.masterOk) = false then some ⟨-1, []⟩
  else
    match mainBody env drive blocks offset with
    | none => none
    | some out =>
      some ⟨out.rc, (if env.haveNvme then [] else [MainEv.logNvmeDisabled]) ++ out.trace⟩

theorem validateArgs_iff (card_no drive blocks offset : Nat) :
    validateArgs card_no drive blocks offset = true ↔
      ((drive = 0 ∨ drive = 1) ∧ blocks ≠ 0 ∧ blocks ≤ max_blocks ∧ offset % 512 = 0 ∧
       offset ≤ NVME_DRIVE_SIZE ∧ offset + blocks * NVME_LB_SIZE ≤ NVME_DRIVE_SIZE ∧
       card_no ≤ 3) := by
  unfold validateArgs
  simp [Bool.and_eq_true, Bool.or_eq_true, and_assoc]

/-- Claim C8: each listed invalid input — unaligned offset, zero blocks,
    block count above the 32 MiB transfer ceiling divided by the block
    size, offset beyond the 4 GiB capacity, or offset plus transfer size
    beyond the capacity — makes main exit with the nonzero code 1 and an
    empty trace, hence before any hardware register access. -/
theorem claim_C8_validation (env : MainEnv) (card_no drive blocks offset : Nat)
    (h : offset % 512 ≠ 0 ∨ blocks = 0 ∨ max_blocks < blocks ∨ NVME_DRIVE_SIZE < offset ∨
         NVME_DRIVE_SIZE < offset + blocks * NVME_LB_SIZE) :
    mainModel env card_no drive blocks offset = some ⟨1, []⟩ := by
  have hv : validateArgs card_no drive blocks offset = false := by
    rw [Bool.eq_false_iff]
    intro hc
    rw [validateArgs_iff] at hc
    obtain ⟨-, h2, h3, h4, h5, h6, -⟩ := hc
    rcases h with h | h | h | h | h <;> omega
  unfold mainModel
  rw [hv]
  simp

/-- Claim C8 witness: the offset 513, not 512-aligned, is rejected with
    exit code 1 and an empty hardware trace. -/
theorem claim_C8_witness :
    mainModel ⟨true, true, true, some 4096, some 8192, true, true, true,
        ⟨fun _ => 0, fun _ => 1, 2, 2⟩, fun _ => 0⟩ 0 0 1 513 = some ⟨1, []⟩ :=
  claim_C8_validation ⟨true, true, true, some 4096, some 8192, true, true, true,
      ⟨fun _ => 0, fun _ => 1, 2, 2⟩, fun _ => 0⟩ 0 0 1 513 (Or.inl (by decide))

/-- Value of a write to LBA_LOW, none for any other event. -/
def nvmeLbaLowVal : NvmeEv → Option Nat
  | NvmeEv.writeReg a v => if a = LBA_LOW then some v else none
  | _ => none

/-- Value of a write to DPTR_LOW, none for any other event. -/
def nvmeDptrLowVal : NvmeEv → Option Nat
  | NvmeEv.writeReg a v => if a = DPTR_LOW then some v else none
  | _ => none

/-- Value of a storage-queue LBA_LOW write inside a session trace. -/
def mainLbaLowVal : MainEv → Option Nat
  | MainEv.nvme e => nvmeLbaLowVal e
  | _ => none

/-- Value of a storage-queue DPTR_LOW write inside a session trace. -/
def mainDptrLowVal : MainEv → Option Nat
  | MainEv.nvme e => nvmeDptrLowVal e
  | _ => none

theorem filterMap_none_of_all (f : NvmeEv → Option Nat) (evs : List NvmeEv)
    (h : ∀ e ∈ evs, f e = none) : evs.filterMap f = [] := by
  induction evs with
  | nil => rfl
  | cons e rest ih =>
    rw [List.filterMap_cons, h e (by simp)]
    exact ih (fun x hx => h x (by simp [hx]))

theorem burstIter_lowWrites (status track : Nat → Nat) (fullBit cmd_reg blocks pollFuel : Nat)
    (st st1 : BurstSt) (evs : List NvmeEv) (qs : List Int)
    (h : burstIter status track fullBit cmd_reg blocks pollFuel st = some (st1, evs, qs)) :
    evs.filterMap nvmeLbaLowVal = [st.lba_low] ∧
    evs.filterMap nvmeDptrLowVal = [st.dptr_low] := by
  unfold burstIter at h
  rcases hpoll : pollFull status fullBit pollFuel st.sIdx with _ | ⟨sIdx1, pollEvs⟩
  · rw [hpoll] at h
    simp at h
  · rw [hpoll] at h
    simp only [Option.some.injEq, Prod.mk.injEq] at h
    obtain ⟨-, hevs, -⟩ := h
    obtain ⟨-, -, -, -, hmem⟩ := pollFull_spec status fullBit pollFuel st.sIdx sIdx1 pollEvs hpoll
    have hnone1 : ∀ e ∈ pollEvs, nvmeLbaLowVal e = none := by
      intro e he
      obtain ⟨w, hw⟩ := hmem e he
      subst hw
      rfl
    have hnone2 : ∀ e ∈ pollEvs, nvmeDptrLowVal e = none := by
      intro e he
      obtain ⟨w, hw⟩ := hmem e he
      subst hw
      rfl
    constructor
    · rw [← hevs, List.filterMap_append, filterMap_none_of_all _ pollEvs hnone1]
      simp [nvmeLbaLowVal, DPTR_LOW, LBA_LOW, COMMAND_REG]
    · rw [← hevs, List.filterMap_append, filterMap_none_of_all _ pollEvs hnone2]
      simp [nvmeDptrLowVal, DPTR_LOW, LBA_LOW, COMMAND_REG]

theorem burstLoop_heads (status track : Nat → Nat) (fullBit cmd_reg blocks pollFuel : Nat)
    (n : Nat) (st st2 : BurstSt) (evs : List NvmeEv) (qs : List Int)
    (h : burstLoop status track fullBit cmd_reg blocks pollFuel n st = some (st2, evs, qs)) :
    (evs.filterMap nvmeLbaLowVal).headD st.lba_low = st.lba_low ∧
    (evs.filterMap nvmeDptrLowVal).headD st.dptr_low = st.dptr_low := by
  cases n with
  | zero =>
    simp [burstLoop] at h
    obtain ⟨-, h2, -⟩ := h
    subst h2
    exact ⟨rfl, rfl⟩
  | succ n =>
    rw [burstLoop] at h
    rcases hit : burstIter status track fullBit cmd_reg blocks pollFuel st with _ | ⟨st1, evs1, qs1⟩
    · rw [hit] at h
      simp at h
    · rw [hit] at h
      simp only [Option.some.injEq] at h
      rcases hrec : burstLoop status track fullBit cmd_reg blocks pollFuel n st1 with _ | ⟨st2b, evs2, qs2⟩
      · rw [hrec] at h
        simp at h
      · rw [hrec] at h
        simp only [Option.some.injEq, Prod.mk.injEq] at h
        obtain ⟨-, hevs, -⟩ := h
        have hlw := burstIter_lowWrites status track fullBit cmd_reg blocks pollFuel st st1
          evs1 qs1 hit
        constructor
        · rw [← hevs, List.filterMap_append, hlw.1]
          rfl
        · rw [← hevs, List.filterMap_append, hlw.2]
          rfl

theorem drainLoop_trackOnly (track : Nat → Nat) : ∀ (fuel tIdx : Nat) (qin qEnd : Int)
    (evs : List NvmeEv) (qs : List Int),
    drainLoop track fuel tIdx qin = some (qEnd, evs, qs) →
    ∀ e ∈ evs, ∃ w, e = NvmeEv.readTrack w := by
  intro fuel
  induction fuel with
  | zero =>
    intro tIdx qin qEnd evs qs h
    by_cases h0 : qin = 0
    · simp [drainLoop, h0] at h
      obtain ⟨-, h2, -⟩ := h
      subst h2
      intro e he
      simp at he
    · simp [drainLoop, h0] at h
  | succ f ih =>
    intro tIdx qin qEnd evs qs h
    by_cases h0 : qin = 0
    · simp [drainLoop, h0] at h
      obtain ⟨-, h2, -⟩ := h
      subst h2
      intro e he
      simp at he
    · rw [drainLoop, if_neg h0] at h
      rcases hrec : drainLoop track f (tIdx + 1) (trackDecrement qin (track tIdx)) with _ | ⟨q2, evs2, qs2⟩
      · rw [hrec] at h
        simp at h
      · rw [hrec] at h
        simp only [Option.some.injEq, Prod.mk.injEq] at h
        obtain ⟨-, h2, -⟩ := h
        subst h2
        intro e he
        simp at he
        rcases he with he | he
        · exact ⟨track tIdx, he⟩
        · exact ih (tIdx + 1) (trackDecrement qin (track tIdx)) q2 evs2 qs2 hrec e he

theorem nvme_read_test_heads (env : BurstEnv) (drive blocks nmax : Nat) (out : BurstOut)
    (hrun : nvme_read_test env drive blocks nmax = some out) :
    (out.trace.filterMap nvmeLbaLowVal).headD 0 = 0 ∧
    (out.trace.filterMap nvmeDptrLowVal).headD 0 = 0 := by
  unfold nvme_read_test at hrun
  rcases hloop : burstLoop env.status env.track (fullBitFor drive) (cmdRegFor drive) blocks
      env.pollFuel nmax ⟨0, 0, 0, 0, 0⟩ with _ | ⟨st, loopEvs, loopQs⟩
  · rw [hloop] at hrun
    simp at hrun
  · rw [hloop] at hrun
    simp only [Option.some.injEq] at hrun
    rcases hdr : drainLoop env.track env.drainFuel st.tIdx st.qin with _ | ⟨qEnd, drainEvs, drainQs⟩
    · rw [hdr] at hrun
      simp at hrun
    · rw [hdr] at hrun
      simp only [Option.some.injEq] at hrun
      have htr : out.trace =
          [NvmeEv.writeReg DPTR_HIGH 2, NvmeEv.writeReg LBA_HIGH 0,
           NvmeEv.writeReg LBA_NUM blocks] ++ loopEvs ++ drainEvs := by
        rw [← hrun]
      have hto := drainLoop_trackOnly env.track env.drainFuel st.tIdx st.qin qEnd
        drainEvs drainQs hdr
      have hd1 : drainEvs.filterMap nvmeLbaLowVal = [] := by
        refine filterMap_none_of_all _ drainEvs ?_
        intro e he
        obtain ⟨w, hw⟩ := hto e he
        subst hw
        rfl
      have hd2 : drainEvs.filterMap nvmeDptrLowVal = [] := by
        refine filterMap_none_of_all _ drainEvs ?_
        intro e he
        obtain ⟨w, hw⟩ := hto e he
        subst hw
        rfl
      have hsetup1 : ([NvmeEv.writeReg DPTR_HIGH 2, NvmeEv.writeReg LBA_HIGH 0,
          NvmeEv.writeReg LBA_NUM blocks]).filterMap nvmeLbaLowVal = [] := rfl
      have hsetup2 : ([NvmeEv.writeReg DPTR_HIGH 2, NvmeEv.writeReg LBA_HIGH 0,
          NvmeEv.writeReg LBA_NUM blocks]).filterMap nvmeDptrLowVal = [] := rfl
      have hl := burstLoop_heads env.status env.track (fullBitFor drive) (cmdRegFor drive)
        blocks env.pollFuel nmax ⟨0, 0, 0, 0, 0⟩ st loopEvs loopQs hloop
      constructor
      · rw [htr, List.filterMap_append, List.filterMap_append, hsetup1, hd1, List.nil_append,
          List.append_nil]
        exact hl.1
      · rw [htr, List.filterMap_append, List.filterMap_append, hsetup2, hd2, List.nil_append,
          List.append_nil]
        exact hl.2

theorem filterMap_map_nvme (g : MainEv → Option Nat) (f : NvmeEv → Option Nat)
    (hgf : ∀ e, g (MainEv.nvme e) = f e) (L : List NvmeEv) :
    (L.map MainEv.nvme).filterMap g = L.filterMap f := by
  induction L with
  | nil => rfl
  | cons e rest ih =>
    rw [List.map_cons, List.filterMap_cons, List.filterMap_cons, hgf e, ih]

theorem mainBody_trace_offset (env : MainEnv) (drive blocks o1 o2 : Nat) :
    (mainBody env drive blocks o1).map MainOut.trace =
      (mainBody env drive blocks o2).map MainOut.trace := by
  unfold mainBody
  rcases hs : env.srcBuf with _ | srcAddr
  · rfl
  · rcases hd : env.destBuf with _ | destAddr
    · rfl
    · by_cases ha : env.attachOk = false
      · simp [ha]
      · by_cases hc1 : env.copy1Ok = false
        · simp [ha, hc1]
        · rcases hnv : nvme_read_test env.burst drive blocks 10 with _ | bout
          · simp [ha, hc1, hnv]
          · by_cases hc2 : env.copy2Ok = false
            · simp [ha, hc1, hnv, hc2]
            · simp [ha, hc1, hnv, hc2]

theorem mainBody_heads (env : MainEnv) (drive blocks offset : Nat) (u : MainOut)
    (hb : mainBody env drive blocks offset = some u) :
    (u.trace.filterMap mainLbaLowVal).headD 0 = 0 ∧
    (u.trace.filterMap mainDptrLowVal).headD 0 = 0 := by
  unfold mainBody at hb
  rcases hs : env.srcBuf with _ | srcAddr
  · rw [hs] at hb
    simp only [Option.some.injEq] at hb
    subst hb
    exact ⟨rfl, rfl⟩
  · rw [hs] at hb
    rcases hd : env.destBuf with _ | destAddr
    · rw [hd] at hb
      simp only [Option.some.injEq] at hb
      subst hb
      exact ⟨rfl, rfl⟩
    · rw [hd] at hb
      simp only [Option.some.injEq] at hb
      by_cases ha : env.attachOk = false
      · rw [if_pos ha] at hb
        simp only [Option.some.injEq] at hb
        subst hb
        exact ⟨rfl, rfl⟩
      · rw [if_neg ha] at hb
        by_cases hc1 : env.copy1Ok = false
        · rw [if_pos hc1] at hb
          simp only [Option.some.injEq] at hb
          subst hb
          exact ⟨rfl, rfl⟩
        · rw [if_neg hc1] at hb
          rcases hnv : nvme_read_test env.burst drive blocks 10 with _ | bout
          · rw [hnv] at hb
            simp at hb
          · rw [hnv] at hb
            simp only [Option.some.injEq] at hb
            have hheads := nvme_read_test_heads env.burst drive blocks 10 bout hnv
            have hmap1 : (bout.trace.map MainEv.nvme).filterMap mainLbaLowVal =
                bout.trace.filterMap nvmeLbaLowVal :=
              filterMap_map_nvme mainLbaLowVal nvmeLbaLowVal (fun e => rfl) bout.trace
            have hmap2 : (bout.trace.map MainEv.nvme).filterMap mainDptrLowVal =
                bout.trace.filterMap nvmeDptrLowVal :=
              filterMap_map_nvme mainDptrLowVal nvmeDptrLowVal (fun e => rfl) bout.trace
            have htrace : u.trace =
                (actionMemcpyEvs CopyCmd.copyHD 0 srcAddr (blocks * NVME_LB_SIZE) ++
                  [MainEv.startWait env.copy1Ok]) ++
                bout.trace.map MainEv.nvme ++
                (actionMemcpyEvs CopyCmd.copyDH destAddr (0 + blocks * NVME_LB_SIZE)
                  (blocks * NVME_LB_SIZE) ++ [MainEv.startWait env.copy2Ok]) := by
              by_cases hc2 : env.copy2Ok = false
              · rw [if_pos hc2] at hb
                simp only [Option.some.injEq] at hb
                rw [← hb]
              · rw [if_neg hc2] at hb
                simp only [Option.some.injEq] at hb
                rw [← hb]
            have hcopy1a : (actionMemcpyEvs CopyCmd.copyHD 0 srcAddr (blocks * NVME_LB_SIZE) ++
                [MainEv.startWait env.copy1Ok]).filterMap mainLbaLowVal = [] := rfl
            have hcopy1b : (actionMemcpyEvs CopyCmd.copyHD 0 srcAddr (blocks * NVME_LB_SIZE) ++
                [MainEv.startWait env.copy1Ok]).filterMap mainDptrLowVal = [] := rfl
            have hcopy2a : (actionMemcpyEvs CopyCmd.copyDH destAddr
                (0 + blocks * NVME_LB_SIZE) (blocks * NVME_LB_SIZE) ++
                [MainEv.startWait env.copy2Ok]).filterMap mainLbaLowVal = [] := rfl
            have hcopy2b : (actionMemcpyEvs CopyCmd.copyDH destAddr
                (0 + blocks * NVME_LB_SIZE) (blocks * NVME_LB_SIZE) ++
                [MainEv.startWait env.copy2Ok]).filterMap mainDptrLowVal = [] := rfl
            constructor
            · rw [htrace, List.filterMap_append, List.filterMap_append, hcopy1a, hcopy2a,
                hmap1, List.nil_append, List.append_nil]
              exact hheads.1
            · rw [htrace, List.filterMap_append, List.filterMap_append, hcopy1b, hcopy2b,
                hmap2, List.nil_append, List.append_nil]
              exact hheads.2

theorem mainModel_eq (env : MainEnv) (card_no drive blocks offset : Nat)
    (hval : validateArgs card_no drive blocks offset = true)
    (hcard : (env.slaveOk && env.masterOk) = true) :
    mainModel env card_no drive blocks offset =
      (mainBody env drive blocks offset).map (fun out =>
        ⟨out.rc, (if env.haveNvme then [] else [MainEv.logNvmeDisabled]) ++ out.trace⟩) := by
  unfold mainModel
  rw [hval, hcard]
  rcases hb : mainBody env drive blocks offset with _ | u <;> simp

theorem mainModel_cardFail (env : MainEnv) (card_no drive blocks offset : Nat)
    (hval : validateArgs card_no drive blocks offset = true)
    (hcard : (env.slaveOk && env.masterOk) = false) :
    mainModel env card_no drive blocks offset = some ⟨-1, []⟩ := by
  unfold mainModel
  rw [hval, hcard]
  simp

theorem filterMap_log_cons (f : MainEv → Option Nat) (hf : f MainEv.logNvmeDisabled = none)
    (l : List MainEv) :
    (MainEv.logNvmeDisabled :: l).filterMap f = l.filterMap f := by
  rw [List.filterMap_cons, hf]

theorem mainBody_haveNvme (env : MainEnv) (b : Bool) (drive blocks offset : Nat) :
    mainBody { env with haveNvme := b } drive blocks offset =
      mainBody env drive blocks offset := rfl

/-- Claim C9: two validated runs that differ only in the byte offset
    produce the same observable trace — in particular the same sequence
    of LBA-low and data-pointer-low writes during the read burst — and
    in any terminating run the first LBA-low write and the first
    data-pointer-low write are both 0: the burst always starts at LBA 0
    and data pointer 0, the offset-derived starting block never being
    programmed into the hardware. -/
theorem claim_C9_offset_noninterference (env : MainEnv) (card_no drive blocks o1 o2 : Nat)
    (h1 : validateArgs card_no drive blocks o1 = true)
    (h2 : validateArgs card_no drive blocks o2 = true) :
    ((mainModel env card_no drive blocks o1).map MainOut.trace =
      (mainModel env card_no drive blocks o2).map MainOut.trace)
    ∧ ((mainModel env card_no drive blocks o1).elim True fun out =>
        (out.trace.filterMap mainLbaLowVal).headD 0 = 0 ∧
        (out.trace.filterMap mainDptrLowVal).headD 0 = 0) := by
  cases hcb : (env.slaveOk && env.masterOk) with
  | false =>
    rw [mainModel_cardFail env card_no drive blocks o1 h1 hcb,
      mainModel_cardFail env card_no drive blocks o2 h2 hcb]
    exact ⟨rfl, rfl, rfl⟩
  | true =>
    rw [mainModel_eq env card_no drive blocks o1 h1 hcb,
      mainModel_eq env card_no drive blocks o2 h2 hcb]
    constructor
    · have hoff := mainBody_trace_offset env drive blocks o1 o2
      rcases hb1 : mainBody env drive blocks o1 with _ | u1 <;>
        rcases hb2 : mainBody env drive blocks o2 with _ | u2
      · rfl
      · rw [hb1, hb2] at hoff
        simp at hoff
      · rw [hb1, hb2] at hoff
        simp at hoff
      · rw [hb1, hb2] at hoff
        have htr : u1.trace = u2.trace := by
          simpa using hoff
        show some ((if env.haveNvme then [] else [MainEv.logNvmeDisabled]) ++ u1.trace) =
          some ((if env.haveNvme then [] else [MainEv.logNvmeDisabled]) ++ u2.trace)
        rw [htr]
    · rcases hb1 : mainBody env drive blocks o1 with _ | u1
      · exact trivial
      · have hh := mainBody_heads env drive blocks o1 u1 hb1
        show (((if env.haveNvme then [] else [MainEv.logNvmeDisabled]) ++
              u1.trace).filterMap mainLbaLowVal).headD 0 = 0 ∧
            (((if env.haveNvme then [] else [MainEv.logNvmeDisabled]) ++
              u1.trace).filterMap mainDptrLowVal).headD 0 = 0
        by_cases hn : env.haveNvme = true
        · rw [if_pos hn, List.nil_append]
          exact hh
        · rw [if_neg hn, List.singleton_append,
            filterMap_log_cons mainLbaLowVal rfl, filterMap_log_cons mainDptrLowVal rfl]
          exact hh

/-- Claim C9 witness: a fault-free environment run at offsets 0 and 512,
    both passing validation. -/
theorem claim_C9_witness :
    ((mainModel ⟨true, true, true, some 4096, some 8192, true, true, true,
        ⟨fun _ => 0, fun _ => 1, 2, 2⟩, fun _ => 0⟩ 0 0 1 0).map MainOut.trace =
      (mainModel ⟨true, true, true, some 4096, some 8192, true, true, true,
        ⟨fun _ => 0, fun _ => 1, 2, 2⟩, fun _ => 0⟩ 0 0 1 512).map MainOut.trace)
    ∧ ((mainModel ⟨true, true, true, some 4096, some 8192, true, true, true,
        ⟨fun _ => 0, fun _ => 1, 2, 2⟩, fun _ => 0⟩ 0 0 1 0).elim True fun out =>
        (out.trace.filterMap mainLbaLowVal).headD 0 = 0 ∧
        (out.trace.filterMap mainDptrLowVal).headD 0 = 0) :=
  claim_C9_offset_noninterference ⟨true, true, true, some 4096, some 8192, true, true, true,
    ⟨fun _ => 0, fun _ => 1, 2, 2⟩, fun _ => 0⟩ 0 0 1 0 512 (by decide) (by decide)

/-- Claim C10: whether the card reports NVME as enabled changes nothing
    but the printed error line — exit code and every other trace event,
    including buffer allocation outcomes, both copies, the read burst
    and the verification, are identical — and when the check is reached
    with NVME reported disabled the error line is in the trace. -/
theorem claim_C10_nvme_check (env : MainEnv) (card_no drive blocks offset : Nat) :
    ((mainModel { env with haveNvme := false } card_no drive blocks offset).map
        (fun out => (out.rc, out.trace.filter fun e => !(e == MainEv.logNvmeDisabled))) =
      (mainModel { env with haveNvme := true } card_no drive blocks offset).map
        (fun out => (out.rc, out.trace.filter fun e => !(e == MainEv.logNvmeDisabled))))
    ∧ (validateArgs card_no drive blocks offset = true →
        (env.slaveOk && env.masterOk) = true →
        (mainModel { env with haveNvme := false } card_no drive blocks offset).elim True
          fun out => MainEv.logNvmeDisabled ∈ out.trace) := by
  constructor
  · by_cases hval : validateArgs card_no drive blocks offset = true
    · cases hcb : (env.slaveOk && env.masterOk) with
      | false =>
        rw [mainModel_cardFail { env with haveNvme := false } card_no drive blocks offset
            hval hcb,
          mainModel_cardFail { env with haveNvme := true } card_no drive blocks offset
            hval hcb]
      | true =>
        rw [mainModel_eq { env with haveNvme := false } card_no drive blocks offset hval hcb,
          mainModel_eq { env with haveNvme := true } card_no drive blocks offset hval hcb,
          mainBody_haveNvme env false drive blocks offset,
          mainBody_haveNvme env true drive blocks offset]
        rcases hb : mainBody env drive blocks offset with _ | u
        · rfl
        · simp [List.filter_cons]
    · have hv2 : validateArgs card_no drive blocks offset = false := by
        rcases Bool.eq_false_or_eq_true (validateArgs card_no drive blocks offset) with hx | hx
        · exact absurd hx hval
        · exact hx
      unfold mainModel
      rw [hv2]
      simp
  · intro hval hcard
    rw [mainModel_eq { env with haveNvme := false } card_no drive blocks offset hval hcard,
      mainBody_haveNvme env false drive blocks offset]
    rcases hb : mainBody env drive blocks offset with _ | u
    · exact trivial
    · show MainEv.logNvmeDisabled ∈
        (if ({ env with haveNvme := false } : MainEnv).haveNvme then []
          else [MainEv.logNvmeDisabled]) ++ u.trace
      simp

/-- Claim C10 witness: a fault-free run with NVME reported disabled
    against the same run with it enabled. -/
theorem claim_C10_witness :
    ((mainModel ⟨true, true, false, some 4096, some 8192, true, true, true,
        ⟨fun _ => 0, fun _ => 1, 2, 2⟩, fun _ => 0⟩ 0 0 1 0).map
        (fun out => (out.rc, out.trace.filter fun e => !(e == MainEv.logNvmeDisabled))) =
      (mainModel ⟨true, true, true, some 4096, some 8192, true, true, true,
        ⟨fun _ => 0, fun _ => 1, 2, 2⟩, fun _ => 0⟩ 0 0 1 0).map
        (fun out => (out.rc, out.trace.filter fun e => !(e == MainEv.logNvmeDisabled))))
    ∧ (mainModel ⟨true, true, false, some 4096, some 8192, true, true, true,
        ⟨fun _ => 0, fun _ => 1, 2, 2⟩, fun _ => 0⟩ 0 0 1 0).elim True
        (fun out => MainEv.logNvmeDisabled ∈ out.trace) :=
  ⟨(claim_C10_nvme_check ⟨true, true, true, some 4096, some 8192, true, true, true,
      ⟨fun _ => 0, fun _ => 1, 2, 2⟩, fun _ => 0⟩ 0 0 1 0).1,
   (claim_C10_nvme_check ⟨true, true, true, some 4096, some 8192, true, true, true,
      ⟨fun _ => 0, fun _ => 1, 2, 2⟩, fun _ => 0⟩ 0 0 1 0).2 (by decide) rfl⟩
